import Mathlib

/-!
Verification development for the intern-bot watcher (`watcher.py`).

The Python source is shallowly embedded: records (Python dicts of strings)
become association lists `List (String × String)`, Python string methods
become explicit functions over `List Char`, machine-level hashing (SHA-1)
is implemented over `Nat` with explicit reductions modulo `2 ^ 32`, and the
persisted JSON state becomes an inductive `PyJson` type.  Stateful code in
`main` becomes explicit state passing.
-/

namespace InternBot

/-! ### Python string primitives (over `List Char`) -/

/-- The whitespace characters recognised by Python's `str.strip()` /
regex `\s` (ASCII range: space, tab, newline, vertical tab, form feed,
carriage return). -/
def pyIsSpace (c : Char) : Bool :=
  c = ' ' || c = '\t' || c = '\n' || c = Char.ofNat 0x0b || c = Char.ofNat 0x0c || c = '\r'

/-- `s.lstrip()` on the character list: drop leading whitespace. -/
def lstripL (l : List Char) : List Char := l.dropWhile pyIsSpace

/-- `s.rstrip()` on the character list: drop trailing whitespace. -/
def rstripL (l : List Char) : List Char := (l.reverse.dropWhile pyIsSpace).reverse

/-- Python `s.strip()` (no argument): drop whitespace at both ends. -/
def pyStripL (l : List Char) : List Char := rstripL (lstripL l)

/-- Python `s.strip()` at the `String` level. -/
def pyStrip (s : String) : String := ⟨pyStripL s.data⟩

/-- Python `s.strip(chars)`: drop characters from `set` at both ends. -/
def stripSetL (set : List Char) (l : List Char) : List Char :=
  ((l.dropWhile (set.contains ·)).reverse.dropWhile (set.contains ·)).reverse

/-- Python `s.lstrip(chars)`: drop leading characters from `set`. -/
def lstripSetL (set : List Char) (l : List Char) : List Char :=
  l.dropWhile (set.contains ·)

/-- Python `s.lower()` (adequate for the ASCII text these heuristics see). -/
def strLower (s : String) : String := ⟨s.data.map Char.toLower⟩

/-- Python `s.startswith(p)`. -/
def strStartsWith (s p : String) : Bool := p.data.isPrefixOf s.data

/-- Python `s.endswith(p)`. -/
def strEndsWith (s p : String) : Bool := p.data.isSuffixOf s.data

/-- Substring test on character lists (Python's `needle in hay`). -/
def containsSubL (hay needle : List Char) : Bool :=
  match hay with
  | [] => needle.isEmpty
  | _ :: t => needle.isPrefixOf hay || containsSubL t needle

/-- Python's `needle in hay` on strings. -/
def containsSub (hay needle : String) : Bool := containsSubL hay.data needle.data

/-- Python `s.split(sep)` for a one-character separator (never returns `[]`;
`"".split(c) == [""]`). -/
def splitCharL (sep : Char) : List Char → List (List Char)
  | [] => [[]]
  | x :: xs =>
    match splitCharL sep xs with
    | [] => [[]]
    | h :: t => if x = sep then [] :: h :: t else (x :: h) :: t

/-- Python `s.splitlines()` restricted to the `\n`, `\r`, and `\r\n`
terminators these documents use; a trailing terminator produces no empty
final line. -/
def splitlinesL : List Char → List (List Char)
  | [] => []
  | '\r' :: '\n' :: rest => [] :: splitlinesL rest
  | '\r' :: rest => [] :: splitlinesL rest
  | '\n' :: rest => [] :: splitlinesL rest
  | c :: rest =>
    match splitlinesL rest with
    | [] => [[c]]
    | h :: t => (c :: h) :: t

/-- `str.splitlines` at the `String` level, producing `String` lines. -/
def pySplitlines (s : String) : List String := (splitlinesL s.data).map (⟨·⟩)

/-- Python slicing `s[:n]`. -/
def strTake (n : Nat) (s : String) : String := ⟨s.data.take n⟩

/-- `"\n".join(lines)`-style joining with a separator string. -/
def strJoin (sep : String) : List String → String
  | [] => ""
  | [x] => x
  | x :: xs => x ++ sep ++ strJoin sep xs

/-- Index of the first occurrence of `needle` in `l`, if any. -/
def findSubIdx (needle : List Char) : List Char → Option Nat
  | [] => if needle.isEmpty then some 0 else none
  | x :: xs =>
    if needle.isPrefixOf (x :: xs) then some 0
    else (findSubIdx needle xs).map (· + 1)

/-! ### SHA-1 (`hashlib.sha1(...).hexdigest()`), over `Nat` modulo `2 ^ 32` -/

/-- Rotate the 32-bit word `x` (a `Nat < 2 ^ 32`) left by `n`. -/
def rotl32 (n x : Nat) : Nat := ((x <<< n) % 2 ^ 32) ||| (x >>> (32 - n))

/-- Split `n` into `len` big-endian bytes. -/
def natToBytesBE (len n : Nat) : List Nat :=
  (List.range len).map fun i => (n >>> (8 * (len - 1 - i))) % 256

/-- SHA-1 message padding: append `0x80`, zeros to 56 mod 64, then the
64-bit big-endian bit length. -/
def sha1pad (msg : List Nat) : List Nat :=
  let l := msg.length
  let k := (119 - l % 64) % 64
  msg ++ [0x80] ++ List.replicate k 0 ++ natToBytesBE 8 (8 * l)

/-- Combine 4 bytes into one big-endian 32-bit word. -/
def word32OfBytes (b : List Nat) : Nat :=
  b.foldl (fun acc x => acc * 256 + x) 0

/-- Split a byte list into the list of its 64-byte chunks. -/
def chunks64 (l : List Nat) : List (List Nat) :=
  if h : l = [] then []
  else
    have : l.length - 64 < l.length := by
      cases l with
      | nil => exact absurd rfl h
      | cons a as => simp only [List.length_cons]; omega
    l.take 64 :: chunks64 (l.drop 64)
  termination_by l.length
  decreasing_by simpa using this

/-- Extend the 16 message words of a chunk to the 80-word SHA-1 schedule. -/
def sha1schedule (ws : List Nat) : List Nat :=
  (List.range 64).foldl
    (fun acc _ =>
      let i := acc.length
      let w := rotl32 1 ((acc.getD (i - 3) 0) ^^^ (acc.getD (i - 8) 0) ^^^
        (acc.getD (i - 14) 0) ^^^ (acc.getD (i - 16) 0))
      acc ++ [w])
    ws

/-- The SHA-1 round function and constant for round `i`. -/
def sha1f (i b c d : Nat) : Nat × Nat :=
  if i < 20 then ((b &&& c) ||| ((b ^^^ 0xffffffff) &&& d), 0x5a827999)
  else if i < 40 then (b ^^^ c ^^^ d, 0x6ed9eba1)
  else if i < 60 then ((b &&& c) ||| (b &&& d) ||| (c &&& d), 0x8f1bbcdc)
  else (b ^^^ c ^^^ d, 0xca62c1d6)

/-- Process one 64-byte chunk, updating the 5-word state. -/
def sha1chunk (st : List Nat) (chunk : List Nat) : List Nat :=
  let ws := sha1schedule ((List.range 16).map fun i => word32OfBytes ((chunk.drop (4 * i)).take 4))
  let h0 := st.getD 0 0; let h1 := st.getD 1 0; let h2 := st.getD 2 0
  let h3 := st.getD 3 0; let h4 := st.getD 4 0
  let r := (List.range 80).foldl
    (fun (abcde : Nat × Nat × Nat × Nat × Nat) i =>
      let (a, b, c, d, e) := abcde
      let (f, k) := sha1f i b c d
      let temp := (rotl32 5 a + f + e + k + ws.getD i 0) % 2 ^ 32
      (temp, a, rotl32 30 b, c, d))
    (h0, h1, h2, h3, h4)
  let (a, b, c, d, e) := r
  [(h0 + a) % 2 ^ 32, (h1 + b) % 2 ^ 32, (h2 + c) % 2 ^ 32,
   (h3 + d) % 2 ^ 32, (h4 + e) % 2 ^ 32]

/-- The 20-byte SHA-1 digest of a byte sequence. -/
def sha1bytes (msg : List Nat) : List Nat :=
  let init := [0x67452301, 0xefcdab89, 0x98badcfe, 0x10325476, 0xc3d2e1f0]
  let final := (chunks64 (sha1pad msg)).foldl sha1chunk init
  final.flatMap (natToBytesBE 4)

/-- One lowercase hex digit. -/
def hexDigit (n : Nat) : Char :=
  if n < 10 then Char.ofNat (48 + n) else Char.ofNat (87 + n)

/-- `hashlib.sha1(key.encode()).hexdigest()`: the 40-character lowercase
hex digest of the UTF-8 encoding of `key`. -/
def sha1hex (key : String) : String :=
  let bytes := key.toUTF8.toList.map UInt8.toNat
  ⟨(sha1bytes bytes).flatMap fun b => [hexDigit (b / 16), hexDigit (b % 16)]⟩

/-! ### Posting records (Python string dicts as association lists) -/

/-- A posting record: the Python `dict` of string values built by
`normalize_item` (plus the optional `posted` entry from `meta`).  Lookup
follows Python semantics through first-match association (keys are unique
in every dict the program builds). -/
def Item : Type := List (String × String)

instance : DecidableEq Item :=
  inferInstanceAs (DecidableEq (List (String × String)))

instance : Membership (String × String) Item := ⟨fun i kv => List.Mem kv i⟩

/-- Python `d.get(k, default)`. -/
def dictGetD (i : Item) (k default : String) : String :=
  (i.lookup k).getD default

/-- Python `d.get(k)` (returns `None`, i.e. `none`, when absent). -/
def dictGet (i : Item) (k : String) : Option String := i.lookup k

/-- Python `d[k]` on the records this program builds (`normalize_item`
always populates the base keys, so the lookup never faults). -/
def dictIdx (i : Item) (k : String) : String := (i.lookup k).getD ""

/-- `normalize_item(source, category, title, url, company, location, meta)`:
trims the free-text fields and appends the `meta` entries (`posted` is the
only meta key the program uses, and it never collides with a base key). -/
def normalize_item (source category title url : String)
    (company location : String) (posted : Option String) : Item :=
  [("source", source), ("category", category), ("title", pyStrip title),
   ("company", pyStrip company), ("location", pyStrip location),
   ("url", pyStrip url)] ++
  (match posted with
   | some p => [("posted", p)]
   | none => [])

/-- The dedup key string
`f"{item.get('company','').strip()}|{item.get('title','').strip()}|{item.get('url','').strip()}"`. -/
def shaKey (item : Item) : String :=
  pyStrip (dictGetD item "company" "") ++ "|" ++
  pyStrip (dictGetD item "title" "") ++ "|" ++
  pyStrip (dictGetD item "url" "")

/-- `sha(item)`: the SHA-1 hex digest of the dedup key. -/
def sha (item : Item) : String := sha1hex (shaKey item)

/-! ### The dedup loop of `main` (`filter_new` in the spec) -/

/-- The de-dupe-vs-seen loop of `main`: walk the records in arrival order;
a record whose fingerprint is not yet in the seen set is emitted and its
fingerprint added.  The seen set is modelled as a list with membership
semantics. -/
def filter_new : List Item → List String → List Item × List String
  | [], seen => ([], seen)
  | it :: rest, seen =>
    let key := sha it
    if seen.contains key then filter_new rest seen
    else
      let r := filter_new rest (key :: seen)
      (it :: r.1, r.2)

/-! ### SimplifyJobs README extractor (`parse_simplify_2026_age0` et al.) -/

/-- A code point in the emoji/symbol ranges removed by `_norm`
(`[☀-⟿\U0001F000-\U0001FAFF]`). -/
def isEmojiChar (c : Char) : Bool :=
  (0x2600 ≤ c.toNat && c.toNat ≤ 0x27ff) ||
  (0x1F000 ≤ c.toNat && c.toNat ≤ 0x1FAFF)

/-- A character kept verbatim by `_norm`'s second substitution
(`[^\w\s&/+-]` is replaced by a space): word characters (ASCII reading of
`\w`), whitespace, and the literals `&`, `/`, `+`, `-`. -/
def isNormKeep (c : Char) : Bool :=
  c.isAlphanum || c = '_' || pyIsSpace c || c = '&' || c = '/' || c = '+' || c = '-'

/-- Collapse every whitespace run to a single space (`re.sub(r"\s+", " ", s)`). -/
def collapseWsL : List Char → List Char
  | [] => []
  | c :: rest =>
    if pyIsSpace c then
      match collapseWsL rest with
      | ' ' :: t => ' ' :: t
      | r => ' ' :: r
    else c :: collapseWsL rest

/-- `_norm`: lowercase, delete emoji/symbol code points, turn the remaining
non-`[\w\s&/+-]` characters into spaces, collapse whitespace, strip. -/
def norm (s : String) : String :=
  ⟨pyStripL (collapseWsL (((s.data.map Char.toLower).filter
    (fun c => !isEmojiChar c)).map (fun c => if isNormKeep c then c else ' ')))⟩

/-- Whether a `## ` heading line matches the section phrase:
`_norm(section_phrase) in _norm(line.lstrip("# ").strip())`. -/
def headingMatches (target line : String) : Bool :=
  containsSub (norm ⟨pyStripL (lstripSetL ['#', ' '] line.data)⟩) target

/-- The loop body of `_iter_section_lines`: lines before the first matching
`## ` heading are skipped; after it, lines are yielded until a `## ` heading
that does not match the phrase breaks the loop (a matching one merely keeps
the section open).  Lines starting with `#` but not with `## ` are ordinary
lines. -/
def sectionAux (target : String) : List String → Bool → List String
  | [], _ => []
  | l :: ls, inSec =>
    if strStartsWith l "## " then
      if headingMatches target l then sectionAux target ls true
      else if inSec then []
      else sectionAux target ls false
    else if inSec then l :: sectionAux target ls inSec
    else sectionAux target ls inSec

/-- `_iter_section_lines(md, section_phrase)` as a list of lines. -/
def iterSectionLines (md section_phrase : String) : List String :=
  sectionAux (norm section_phrase) (pySplitlines md) false

/-- Characters allowed between the framing pipes of a separator row
(`[-:\s]`). -/
def isSepChar (c : Char) : Bool := c = '-' || c = ':' || pyIsSpace c

/-- `re.fullmatch(r"\|\s*[-:\s]+\|.*", line)`: the line starts with `|`,
a nonempty run of dashes/colons/whitespace follows, and the character right
after that run is another `|`. -/
def isSeparatorRow (line : String) : Bool :=
  match line.data with
  | '|' :: rest =>
    let seg := rest.takeWhile isSepChar
    !seg.isEmpty && (rest.drop seg.length).headD ' ' = '|'
  | _ => false

/-- `_parse_markdown_table_lines`: keep lines starting with `|`, skip
separator rows, split on `|` after stripping outer whitespace and framing
pipes, and trim each cell.  (The raw line paired with each row in the
source is never consumed downstream and is dropped here.) -/
def parseMarkdownTableLines (sectionLines : List String) : List (List String) :=
  (sectionLines.filter fun l =>
      decide (l.data.headD ' ' = '|') && !isSeparatorRow l).map fun l =>
    (splitCharL '|' (stripSetL ['|'] (pyStripL l.data))).map fun c => ⟨pyStripL c⟩

/-- Fuel-indexed body of `mdLinkTextL`; each step consumes at least one
character, so fuel equal to the input length always suffices (structural
recursion on the fuel keeps the function kernel-reducible). -/
def mdLinkTextFuel : Nat → List Char → List Char
  | 0, l => l
  | _ + 1, [] => []
  | fuel + 1, c :: rest =>
    if c = '[' then
      match findSubIdx [']', '('] rest with
      | none => c :: mdLinkTextFuel fuel rest
      | some i =>
        let after := rest.drop (i + 2)
        match after.findIdx? (· = ')') with
        | none => c :: mdLinkTextFuel fuel rest
        | some j => rest.take i ++ mdLinkTextFuel fuel (after.drop (j + 1))
    else c :: mdLinkTextFuel fuel rest

/-- `re.sub(r"\[(.*?)\]\(.*?\)", r"\1", cell)`: replace every Markdown
link `[text](url)` by `text`, scanning left to right with lazy inner
matches. -/
def mdLinkTextL (l : List Char) : List Char := mdLinkTextFuel l.length l

/-- `_md_link_text` on strings. -/
def mdLinkText (cell : String) : String := ⟨mdLinkTextL cell.data⟩

/-- Try to match `https?://[^\)]+\)` right after an opening parenthesis,
returning the captured URL (`re` semantics: optional `s`, then a greedy
nonempty run of non-`)` characters that must be closed by `)`). -/
def mdUrlAt (rest : List Char) : Option (List Char) :=
  let scheme : Option (List Char) :=
    if "https://".data.isPrefixOf rest then some "https://".data
    else if "http://".data.isPrefixOf rest then some "http://".data
    else none
  match scheme with
  | none => none
  | some sch =>
    let rem := rest.drop sch.length
    let run := rem.takeWhile (· ≠ ')')
    if !run.isEmpty && (rem.drop run.length).headD ' ' = ')' then
      some (sch ++ run)
    else none

/-- Scan for the first `(` from which `https?://[^\)]+\)` matches
(`re.search(r"\((https?://[^\)]+)\)", cell)`). -/
def mdFirstUrlL : List Char → Option (List Char)
  | [] => none
  | c :: rest =>
    if c = '(' then
      match mdUrlAt rest with
      | some url => some url
      | none => mdFirstUrlL rest
    else mdFirstUrlL rest

/-- `_md_first_url`: the captured URL, or `""` when no match. -/
def mdFirstUrl (cell : String) : String :=
  match mdFirstUrlL cell.data with
  | some url => ⟨url⟩
  | none => ""

/-- `re.match(r"(?i)^age$", cell)`. -/
def cellIsAge (cell : String) : Bool := strLower cell = "age"

/-- `re.match(r"(?i)^company$", cell)`. -/
def cellIsCompany (cell : String) : Bool := strLower cell = "company"

/-- The `'0d'` fallback filter used when no Age column was detected: some
cell normalizes exactly to `"0d"` or contains `" 0d"`. -/
def fallback0d (cols : List String) : Bool :=
  cols.any fun c => norm c == "0d" || containsSub (norm c) " 0d"

/-- The body of the row loop in `parse_simplify_2026_age0`: skip the
header row (any cell `company`), short rows, and rows failing the `'0d'`
recency filter; strip link syntax from company and title, take the third
cell as location, extract the URL from the fourth cell, mark `posted` when
a later cell mentions `0d`, and drop the row when no URL was found. -/
def rowItem (category : String) (ageIdx : Option Nat) (cols : List String) :
    Option Item :=
  if cols.any cellIsCompany then none
  else if cols.length < 4 then none
  else
    let is0d :=
      match ageIdx with
      | some i => if i < cols.length then norm (cols.getD i "") == "0d" else fallback0d cols
      | none => fallback0d cols
    if !is0d then none
    else
      let company := mdLinkText (cols.getD 0 "")
      let title := if 1 < cols.length then mdLinkText (cols.getD 1 "") else ""
      let location := if 2 < cols.length then cols.getD 2 "" else ""
      let url := if 3 < cols.length then mdFirstUrl (cols.getD 3 "") else ""
      let posted :=
        if (cols.drop 4).any (fun extra => containsSub (norm extra) "0d") then
          some "0d"
        else none
      if url ≠ "" then
        some (normalize_item "SimplifyJobs 2026" category title url company location posted)
      else none

/-- `SIMPLIFY_SECTIONS`, in insertion order. -/
def SIMPLIFY_SECTIONS : List (String × String) :=
  [("Product Management", "product management internship roles"),
   ("Software Engineering", "software engineering internship roles"),
   ("Machine Learning & AI", "data science ai & machine learning internship roles")]

/-- One section's contribution in `parse_simplify_2026_age0`: locate the
section, parse its table rows, detect the Age column from the first row,
and run the row loop. -/
def parseSection (md category section_name : String) : List Item :=
  let rows := parseMarkdownTableLines (iterSectionLines md section_name)
  if rows.isEmpty then []
  else
    let header := rows.headD []
    let ageIdx :=
      if !header.isEmpty && header.any cellIsAge then header.findIdx? cellIsAge
      else none
    rows.filterMap (rowItem category ageIdx)

/-- `parse_simplify_2026_age0`, parameterised by the fetched README text
(retrieval is I/O and out of the embedded core). -/
def parse_simplify_2026_age0 (md : String) : List Item :=
  if md = "" then []
  else SIMPLIFY_SECTIONS.flatMap fun cs => parseSection md cs.1 cs.2

/-! ### Intern-List card extractor (`_absolute`, `_extract_cards_from_search`) -/

/-- `IL_BASE`. -/
def IL_BASE : String := "https://www.intern-list.com"

/-- The query strings of the four category tabs. -/
def IL_TAB_PATHS : List String := ["/?k=swe", "/?k=da", "/?k=aiml", "/?k=pm"]

/-- `_absolute(url)`: resolve a relative target against the fixed site
origin. -/
def absoluteUrl (url : String) : String :=
  if url = "" then ""
  else if strStartsWith url "http://" || strStartsWith url "https://" then url
  else if strStartsWith url "/" then IL_BASE ++ url
  else IL_BASE ++ "/" ++ url

/-- One hyperlink element as BeautifulSoup presents it to the extraction
loops: the `href` attribute, the visible text (`get_text(strip=True)`),
and the visible text of the enclosing container when the anchor has a
parent. -/
structure Anchor where
  href : String
  text : String
  parentText : Option String
deriving DecidableEq

/-- Substrings whose presence in a lowercased href disqualifies a link in
strategy A. -/
def SKIP_HREF_PARTS : List String :=
  ["#", "/privacy", "/terms", "mailto:", "javascript:", "/sitemap"]

/-- Strategy A of `_extract_cards_from_search`: internal detail links with
`intern` in the text or URL.  The company heuristic applied to the parent's
text (a regex search irrelevant to every claim below) is passed in as
`companyOf`. -/
def cardsStrategyA (companyOf : String → String) (anchors : List Anchor)
    (category : String) : List Item :=
  anchors.filterMap fun a =>
    if a.href = "" || a.text = "" then none
    else
      let lower := strLower a.href
      if SKIP_HREF_PARTS.any (fun x => containsSub lower x) then none
      else
        let isInternal := strStartsWith lower "/" &&
          !(["/"] ++ IL_TAB_PATHS).contains lower
        let looksLikePost := containsSub (strLower a.text) "intern" ||
          containsSub lower "intern"
        if isInternal && looksLikePost then
          let url := absoluteUrl a.href
          let company :=
            match a.parentText with
            | some txt => companyOf txt
            | none => ""
          some (normalize_item "Intern List" category a.text url company "" none)
        else none

/-- Strategy B: external links (CSS selector `a[href^='http']`) containing
`intern`, excluding links that point back at a category tab. -/
def cardsStrategyB (anchors : List Anchor) (category : String) : List Item :=
  anchors.filterMap fun a =>
    if !strStartsWith a.href "http" then none
    else if a.href = "" || a.text = "" then none
    else if !containsSub (strLower a.text ++ " " ++ strLower a.href) "intern" then none
    else if strStartsWith a.href IL_BASE &&
        IL_TAB_PATHS.any (fun t => strEndsWith a.href t) then none
    else some (normalize_item "Intern List" category a.text a.href "" "" none)

/-- The final `uniq` dict of `_extract_cards_from_search`: keys keep the
insertion order of their first occurrence, and each key's value is the
last item carrying that URL. -/
def dedupByUrl (items : List Item) : List Item :=
  ((items.map fun it => dictIdx it "url").dedup).filterMap fun u =>
    (items.reverse).find? fun it => dictIdx it "url" = u

/-- `_extract_cards_from_search`: strategy A, falling back to strategy B
when A yields nothing, then de-duplication by URL. -/
def extract_cards_from_search (companyOf : String → String)
    (anchors : List Anchor) (category : String) : List Item :=
  let itemsA := cardsStrategyA companyOf anchors category
  let items := if itemsA.isEmpty then cardsStrategyB anchors category else itemsA
  dedupByUrl items

/-! ### The idle-notification state machine of `main` -/

/-- One run's effect on the dry-spell flag: `hasNew` tells whether the run
found at least one new record.  Returns `(emitsIdle, flag')`: a zero-new
run sends the idle notice exactly when the flag is still false and then
sets it; a run with new records resets the flag (and sends the regular
alert instead). -/
def runStep (hasNew flag : Bool) : Bool × Bool :=
  if hasNew then (false, false)
  else if flag then (false, true)
  else (true, true)

/-- Fold `runStep` over a sequence of runs, collecting per-run idle
emissions; the flag is carried (persisted) from run to run. -/
def runTrace (flag : Bool) : List Bool → List Bool
  | [] => []
  | h :: hs => (runStep h flag).1 :: runTrace (runStep h flag).2 hs

/-- The persisted flag after a sequence of runs. -/
def flagAfter (flag : Bool) : List Bool → Bool
  | [] => flag
  | h :: hs => flagAfter (runStep h flag).2 hs

/-! ### Alert composition in `main` -/

/-- One itemized entry of the alert body (the list comprehension in
`main`): category and source in brackets (`?` when falsy), company cut to
40 characters (placeholder when empty), title cut to 70 (placeholder when
empty), optional location and recency label, then the URL on a
continuation line. -/
def lineOf (i : Item) : String :=
  "• [" ++ (match dictGet i "category" with
            | some s => if s = "" then "?" else s
            | none => "?") ++
  "] [" ++ (match dictGet i "source" with
            | some s => if s = "" then "?" else s
            | none => "?") ++
  "] " ++
  (if strTake 40 (dictGetD i "company" "") = "" then "Unknown Company"
   else strTake 40 (dictGetD i "company" "")) ++
  " — " ++
  (if strTake 70 (dictGetD i "title" "") = "" then "Role"
   else strTake 70 (dictGetD i "title" "")) ++
  (if dictGetD i "location" "" ≠ "" then " — " ++ dictGetD i "location" "" else "") ++
  (match dictGet i "posted" with
   | some p => if p ≠ "" then " — " ++ p else ""
   | none => "") ++
  "\n" ++ dictIdx i "url"

/-- The alert body composed by `main` for a nonempty list of new records:
at most 6 itemized entries, a `(+N more new roles)` line when more were
found, and the fixed opt-out footer. -/
def composeBody (new : List Item) : String :=
  let batch := new.take 6
  let lines := batch.map lineOf
  let tail := if new.length ≤ 6 then ""
    else "\n(+" ++ Nat.repr (new.length - 6) ++ " more new roles)"
  "New internships:\n" ++ strJoin "\n" lines ++ tail ++ "\nReply STOP to opt out."

/-! ### Persisted state loading (`_init_state`, `load_seen_set_and_flag`) -/

/-- A parsed JSON value (what `json.load` can hand back). -/
inductive PyJson where
  | null : PyJson
  | boolean : Bool → PyJson
  | number : Int → PyJson
  | string : String → PyJson
  | array : List PyJson → PyJson
  | object : List (String × PyJson) → PyJson

/-- What the state file can present to `_init_state`: no file at all, a
file whose contents `open`/`json.load` fail on, or a parsed JSON value. -/
inductive Stored where
  | missing : Stored
  | invalid : Stored
  | parsed : PyJson → Stored

/-- First-match lookup in a JSON object (Python dict keys are unique). -/
def jsonLookup (kvs : List (String × PyJson)) (k : String) : Option PyJson :=
  kvs.lookup k

/-- Python `dict.setdefault`: insert the default at the end when the key is
absent. -/
def setdefault (kvs : List (String × PyJson)) (k : String) (v : PyJson) :
    List (String × PyJson) :=
  if (jsonLookup kvs k).isSome then kvs else kvs ++ [(k, v)]

/-- The default state `{"seen": [], "no_new_notified": False}`. -/
def defaultState : List (String × PyJson) :=
  [("seen", PyJson.array []), ("no_new_notified", PyJson.boolean false)]

/-- `_init_state()`: missing or unreadable storage yields the default; a
bare list is upgraded; a dict gets its missing fields defaulted; any other
JSON value falls through to the default. -/
def init_state : Stored → List (String × PyJson)
  | Stored.missing => defaultState
  | Stored.invalid => defaultState
  | Stored.parsed j =>
    match j with
    | PyJson.array xs => [("seen", PyJson.array xs), ("no_new_notified", PyJson.boolean false)]
    | PyJson.object kvs => setdefault (setdefault kvs "seen" (PyJson.array [])) "no_new_notified" (PyJson.boolean false)
    | _ => defaultState

/-- A JSON value Python can place in a `set` (hashable: not a list or
dict). -/
def jsonHashable : PyJson → Bool
  | PyJson.array _ => false
  | PyJson.object _ => false
  | _ => true

/-- Python `set(x)`: iterates lists (requiring hashable elements), the
characters of a string, or the keys of a dict; any other value raises
`TypeError`.  The resulting set is modelled by the list of its elements. -/
def pySet : PyJson → Except Unit (List PyJson)
  | PyJson.array xs => if xs.all jsonHashable then Except.ok xs else Except.error ()
  | PyJson.string s => Except.ok (s.data.map fun c => PyJson.string ⟨[c]⟩)
  | PyJson.object kvs => Except.ok (kvs.map fun kv => PyJson.string kv.1)
  | _ => Except.error ()

/-- Python `bool(x)` truthiness on JSON values. -/
def pyTruthy : PyJson → Bool
  | PyJson.null => false
  | PyJson.boolean b => b
  | PyJson.number n => n ≠ 0
  | PyJson.string s => s ≠ ""
  | PyJson.array xs => !xs.isEmpty
  | PyJson.object kvs => !kvs.isEmpty

/-- `load_seen_set_and_flag()` (minus the raw state also returned):
`set(state["seen"])` and `bool(state.get("no_new_notified", False))`.
The `set(...)` coercion happens outside `_init_state`'s `try` block, so a
`TypeError` there escapes (modelled as `Except.error`). -/
def load_seen_set_and_flag (st : Stored) : Except Unit (List PyJson × Bool) :=
  let state := init_state st
  match pySet ((jsonLookup state "seen").getD (PyJson.array [])) with
  | Except.ok s =>
    Except.ok (s, pyTruthy ((jsonLookup state "no_new_notified").getD (PyJson.boolean false)))
  | Except.error e => Except.error e

/-- Whether loading raised. -/
def loadRaises (st : Stored) : Bool :=
  match load_seen_set_and_flag st with
  | Except.ok _ => false
  | Except.error _ => true

/-! ### Helper lemmas: stripping and prefixes -/

theorem dropWhile_append_of_all {p : Char → Bool} {l₁ l₂ : List Char}
    (h : ∀ x ∈ l₁, p x = true) :
    (l₁ ++ l₂).dropWhile p = l₂.dropWhile p := by
  induction l₁ with
  | nil => rfl
  | cons a t ih =>
    simp only [List.cons_append, List.dropWhile_cons, h a (by simp), if_true]
    exact ih fun x hx => h x (by simp [hx])

theorem dropWhile_eq_nil_of_all {p : Char → Bool} {l : List Char}
    (h : ∀ x ∈ l, p x = true) : l.dropWhile p = [] := by
  simpa using @dropWhile_append_of_all p l [] h

theorem dropWhile_append_of_not_all {p : Char → Bool} {l₁ l₂ : List Char}
    (h : ¬ ∀ x ∈ l₁, p x = true) :
    (l₁ ++ l₂).dropWhile p = l₁.dropWhile p ++ l₂ := by
  induction l₁ with
  | nil => exact absurd (by simp) h
  | cons a t ih =>
    by_cases ha : p a = true
    · have ht : ¬ ∀ x ∈ t, p x = true := fun hall => h (by
        intro x hx
        rcases List.mem_cons.mp hx with rfl | hx
        · exact ha
        · exact hall x hx)
      simp only [List.cons_append, List.dropWhile_cons, ha, if_true]
      exact ih ht
    · simp [List.dropWhile_cons, ha]

theorem lstripL_pad {pre l : List Char} (h : ∀ x ∈ pre, pyIsSpace x = true) :
    lstripL (pre ++ l) = lstripL l :=
  dropWhile_append_of_all h

theorem rstripL_pad {suf l : List Char} (h : ∀ x ∈ suf, pyIsSpace x = true) :
    rstripL (l ++ suf) = rstripL l := by
  unfold rstripL
  rw [List.reverse_append, dropWhile_append_of_all (by simpa using h)]

/-- `str.strip()` erases any all-whitespace padding around the text. -/
theorem pyStripL_pad {pre suf s : List Char}
    (hpre : ∀ x ∈ pre, pyIsSpace x = true) (hsuf : ∀ x ∈ suf, pyIsSpace x = true) :
    pyStripL (pre ++ s ++ suf) = pyStripL s := by
  unfold pyStripL
  rw [List.append_assoc, lstripL_pad hpre]
  by_cases hs : ∀ x ∈ s, pyIsSpace x = true
  · unfold lstripL
    rw [dropWhile_append_of_all hs, dropWhile_eq_nil_of_all hsuf,
      dropWhile_eq_nil_of_all hs]
  · unfold lstripL
    rw [dropWhile_append_of_not_all hs, rstripL_pad hsuf]

/-- String-level version of `pyStripL_pad`. -/
theorem pyStrip_pad (pre s suf : String)
    (hpre : ∀ x ∈ pre.data, pyIsSpace x = true)
    (hsuf : ∀ x ∈ suf.data, pyIsSpace x = true) :
    pyStrip (pre ++ s ++ suf) = pyStrip s := by
  unfold pyStrip
  rw [String.data_append, String.data_append]
  exact congrArg String.mk (pyStripL_pad hpre hsuf)

theorem isPrefixOf_exists_append {p s : List Char} (h : p.isPrefixOf s = true) :
    ∃ t, s = p ++ t := by
  rw [List.isPrefixOf_iff_prefix] at h
  exact h.imp fun t ht => ht.symm

theorem isPrefixOf_append_self (p t : List Char) : p.isPrefixOf (p ++ t) = true := by
  rw [List.isPrefixOf_iff_prefix]
  exact ⟨t, rfl⟩

/-- Stripping whitespace keeps a nonempty prefix made of non-whitespace
characters. -/
theorem pyStripL_keeps_prefix {p s : List Char} (hne : p ≠ [])
    (hp : ∀ c ∈ p, pyIsSpace c = false) (h : p.isPrefixOf s = true) :
    p.isPrefixOf (pyStripL s) = true := by
  obtain ⟨t, rfl⟩ := isPrefixOf_exists_append h
  obtain ⟨c, p', rfl⟩ : ∃ c p', p = c :: p' := by
    cases p with
    | nil => exact absurd rfl hne
    | cons c p' => exact ⟨c, p', rfl⟩
  have hlstrip : lstripL ((c :: p') ++ t) = (c :: p') ++ t := by
    unfold lstripL
    simp [List.dropWhile_cons, hp c (by simp)]
  unfold pyStripL
  rw [hlstrip]
  unfold rstripL
  rw [List.reverse_append]
  by_cases ht : ∀ x ∈ t.reverse, pyIsSpace x = true
  · rw [dropWhile_append_of_all ht]
    have : (c :: p').reverse.dropWhile pyIsSpace = (c :: p').reverse := by
      cases hrev : (c :: p').reverse with
      | nil => simp at hrev
      | cons b bs =>
        have hb : b ∈ (c :: p') := by
          have hm : b ∈ (c :: p').reverse := by rw [hrev]; simp
          exact List.mem_reverse.mp hm
        simp [List.dropWhile_cons, hp b hb]
    rw [this, List.reverse_reverse]
    simp [isPrefixOf_append_self (c :: p') []]
  · rw [dropWhile_append_of_not_all ht, List.reverse_append, List.reverse_reverse]
    exact isPrefixOf_append_self _ _

/-! ### C2: fingerprint determinism and whitespace insensitivity -/

/-- C2: the fingerprint function is deterministic and whitespace-insensitive:
repeated calls on the same record agree, padding the company, title, or url
value with leading/trailing whitespace leaves the digest unchanged, and a
record with the three fields absent hashes like one carrying empty strings
(each field is trimmed and absent fields default to `""` before hashing the
company/title/url tuple). -/
theorem sha_stable_ws_invariant (src cat loc c t u pc sc pt st' pu su : String)
    (hpc : ∀ ch ∈ pc.data, pyIsSpace ch = true)
    (hsc : ∀ ch ∈ sc.data, pyIsSpace ch = true)
    (hpt : ∀ ch ∈ pt.data, pyIsSpace ch = true)
    (hst : ∀ ch ∈ st'.data, pyIsSpace ch = true)
    (hpu : ∀ ch ∈ pu.data, pyIsSpace ch = true)
    (hsu : ∀ ch ∈ su.data, pyIsSpace ch = true) :
    (∀ item : Item, sha item = sha item) ∧
    sha [("source", src), ("category", cat), ("title", pt ++ t ++ st'),
         ("company", pc ++ c ++ sc), ("location", loc), ("url", pu ++ u ++ su)] =
      sha [("source", src), ("category", cat), ("title", t),
           ("company", c), ("location", loc), ("url", u)] ∧
    sha ([] : Item) = sha [("company", ""), ("title", ""), ("url", "")] := by
  refine ⟨fun _ => rfl, ?_, by rfl⟩
  apply congrArg sha1hex
  show pyStrip (pc ++ c ++ sc) ++ "|" ++ pyStrip (pt ++ t ++ st') ++ "|" ++
        pyStrip (pu ++ u ++ su) =
      pyStrip c ++ "|" ++ pyStrip t ++ "|" ++ pyStrip u
  rw [pyStrip_pad pc c sc hpc hsc, pyStrip_pad pt t st' hpt hst,
    pyStrip_pad pu u su hpu hsu]

/-- Witness for C2 at a concrete record padded with real whitespace. -/
theorem sha_stable_ws_invariant_witness :
    (∀ ch ∈ " ".data, pyIsSpace ch = true) ∧
    (∀ ch ∈ "\t".data, pyIsSpace ch = true) ∧
    (∀ ch ∈ "".data, pyIsSpace ch = true) ∧
    sha [("source", "Intern List"), ("category", "Software Engineering"),
         ("title", " SWE Intern\t"), ("company", " Acme\t"), ("location", "Remote"),
         ("url", " https://acme.example/apply\t")] =
      sha [("source", "Intern List"), ("category", "Software Engineering"),
           ("title", "SWE Intern"), ("company", "Acme"), ("location", "Remote"),
           ("url", "https://acme.example/apply")] :=
  ⟨by decide, by decide, by decide,
    (sha_stable_ws_invariant "Intern List" "Software Engineering" "Remote"
      "Acme" "SWE Intern" "https://acme.example/apply"
      " " "\t" " " "\t" " " "\t"
      (by decide) (by decide) (by decide) (by decide) (by decide) (by decide)).2.1⟩

/-! ### C10: the dedup key is not injective on trimmed field tuples -/

/-- C10: the digest key joins the trimmed company, title, and url with an
unescaped `|`, so records with distinct trimmed field tuples can collide:
`("A|B", "C", "")` and `("A", "B|C", "")` share a fingerprint, and dedup
treats the two distinct postings as one (only the first is emitted). -/
theorem sha_collision_distinct_tuples :
    (pyStrip (dictGetD [("company", "A|B"), ("title", "C"), ("url", "")] "company" ""),
     pyStrip (dictGetD [("company", "A|B"), ("title", "C"), ("url", "")] "title" ""),
     pyStrip (dictGetD [("company", "A|B"), ("title", "C"), ("url", "")] "url" "")) ≠
      (pyStrip (dictGetD [("company", "A"), ("title", "B|C"), ("url", "")] "company" ""),
       pyStrip (dictGetD [("company", "A"), ("title", "B|C"), ("url", "")] "title" ""),
       pyStrip (dictGetD [("company", "A"), ("title", "B|C"), ("url", "")] "url" "")) ∧
    sha [("company", "A|B"), ("title", "C"), ("url", "")] =
      sha [("company", "A"), ("title", "B|C"), ("url", "")] ∧
    (filter_new [[("company", "A|B"), ("title", "C"), ("url", "")],
                 [("company", "A"), ("title", "B|C"), ("url", "")]] []).1 =
      [[("company", "A|B"), ("title", "C"), ("url", "")]] := by
  have hk : sha [("company", "A|B"), ("title", "C"), ("url", "")] =
      sha [("company", "A"), ("title", "B|C"), ("url", "")] :=
    congrArg sha1hex (by decide)
  refine ⟨by decide, hk, ?_⟩
  simp [filter_new, hk.symm]

/-! ### C1: dedup is idempotent and append-only -/

theorem filter_new_seen_mono (items : List Item) :
    ∀ (seen : List String) (k : String), k ∈ seen → k ∈ (filter_new items seen).2 := by
  induction items with
  | nil => intro seen k hk; exact hk
  | cons it rest ih =>
    intro seen k hk
    by_cases hc : sha it ∈ seen
    · simpa [filter_new, hc] using ih seen k hk
    · simpa [filter_new, hc] using ih (sha it :: seen) k (by simp [hk])

theorem filter_new_final_iff (items : List Item) :
    ∀ (seen : List String) (k : String),
      k ∈ (filter_new items seen).2 ↔
        k ∈ seen ∨ k ∈ (filter_new items seen).1.map sha := by
  induction items with
  | nil => intro seen k; simp [filter_new]
  | cons it rest ih =>
    intro seen k
    by_cases hc : sha it ∈ seen
    · simpa [filter_new, hc] using ih seen k
    · have hrec := ih (sha it :: seen) k
      simp only [List.mem_cons] at hrec
      simp only [filter_new, List.elem_eq_mem, hc, decide_False, Bool.false_eq_true,
        if_false, List.map_cons, List.mem_cons]
      rw [hrec]
      tauto

theorem filter_new_emitted (items : List Item) :
    ∀ (seen : List String) (r : Item),
      r ∈ (filter_new items seen).1 → r ∈ items ∧ sha r ∉ seen := by
  induction items with
  | nil => intro seen r hr; simp [filter_new] at hr
  | cons it rest ih =>
    intro seen r hr
    by_cases hc : sha it ∈ seen
    · simp only [filter_new, List.elem_eq_mem, hc, decide_True, if_true] at hr
      obtain ⟨hmem, hns⟩ := ih seen r hr
      exact ⟨by simp [hmem], hns⟩
    · simp only [filter_new, List.elem_eq_mem, hc, decide_False, Bool.false_eq_true,
        if_false, List.mem_cons] at hr
      rcases hr with rfl | hr
      · exact ⟨by simp, hc⟩
      · obtain ⟨hmem, hns⟩ := ih (sha it :: seen) r hr
        refine ⟨by simp [hmem], fun hm => hns (by simp [hm])⟩

theorem filter_new_all_in_final (items : List Item) :
    ∀ (seen : List String) (it : Item), it ∈ items →
      sha it ∈ (filter_new items seen).2 := by
  induction items with
  | nil => intro seen it h; simp at h
  | cons it0 rest ih =>
    intro seen it h
    by_cases hc : sha it0 ∈ seen
    · rcases List.mem_cons.mp h with rfl | h
      · simpa [filter_new, hc] using filter_new_seen_mono rest seen (sha it) hc
      · simpa [filter_new, hc] using ih seen it h
    · rcases List.mem_cons.mp h with rfl | h
      · simpa [filter_new, hc] using
          filter_new_seen_mono rest (sha it :: seen) (sha it) (by simp)
      · simpa [filter_new, hc] using ih (sha it0 :: seen) it h

theorem filter_new_none_of_all_seen (items : List Item) :
    ∀ (seen : List String), (∀ it ∈ items, sha it ∈ seen) →
      (filter_new items seen).1 = [] := by
  induction items with
  | nil => intro seen _; rfl
  | cons it rest ih =>
    intro seen h
    have hc : sha it ∈ seen := h it (by simp)
    simpa [filter_new, hc] using ih seen fun it' h' => h it' (by simp [h'])

/-- C1: the dedup loop of `main` is idempotent and append-only: a record
whose fingerprint is already in the seen state is never emitted, every
emitted record comes from the input with a previously unseen fingerprint,
the carried-forward state contains the old state plus exactly the emitted
fingerprints, and a second run of the same records against the
carried-forward state emits nothing. -/
theorem filter_new_dedup_props (items : List Item) (seen : List String) :
    (∀ r : Item, sha r ∈ seen → r ∉ (filter_new items seen).1) ∧
    (∀ r ∈ (filter_new items seen).1, r ∈ items ∧ sha r ∉ seen) ∧
    (∀ k ∈ seen, k ∈ (filter_new items seen).2) ∧
    (∀ k, k ∈ (filter_new items seen).2 ↔
      k ∈ seen ∨ k ∈ (filter_new items seen).1.map sha) ∧
    (filter_new items ((filter_new items seen).2)).1 = [] := by
  refine ⟨?_, fun r hr => filter_new_emitted items seen r hr,
    fun k hk => filter_new_seen_mono items seen k hk,
    fun k => filter_new_final_iff items seen k,
    filter_new_none_of_all_seen items _ fun it h => filter_new_all_in_final items seen it h⟩
  intro r hr hmem
  exact (filter_new_emitted items seen r hmem).2 hr

/-- Witness for C1: with the fingerprint of a concrete record already in
the state, the record is not emitted. -/
theorem filter_new_dedup_props_witness :
    (sha [("company", "DemoCo"), ("title", "SWE"), ("url", "https://x.example")] ∈
      [sha [("company", "DemoCo"), ("title", "SWE"), ("url", "https://x.example")]]) ∧
    [("company", "DemoCo"), ("title", "SWE"), ("url", "https://x.example")] ∉
      (filter_new
        [[("company", "DemoCo"), ("title", "SWE"), ("url", "https://x.example")]]
        [sha [("company", "DemoCo"), ("title", "SWE"), ("url", "https://x.example")]]).1 :=
  ⟨List.mem_singleton.mpr rfl,
    (filter_new_dedup_props
      [[("company", "DemoCo"), ("title", "SWE"), ("url", "https://x.example")]]
      [sha [("company", "DemoCo"), ("title", "SWE"), ("url", "https://x.example")]]).1
      [("company", "DemoCo"), ("title", "SWE"), ("url", "https://x.example")]
      (List.mem_singleton.mpr rfl)⟩

/-! ### C3: end-to-end Markdown extraction example -/

/-- C3: a document whose Software Engineering section holds the header row
`Company | Role | Location | Application | Age` and the single data row
`[Acme](https://acme.example) | [SWE Intern](https://acme.example) | Remote |
[Apply](https://acme.example/apply) | 0d` yields exactly one record with
company `Acme`, title `SWE Intern`, location `Remote`, url
`https://acme.example/apply`, category `Software Engineering`, and posted
`0d`. -/
theorem markdown_extraction_end_to_end :
    parse_simplify_2026_age0
      "## Software Engineering Internship Roles\n| Company | Role | Location | Application | Age |\n| --- | --- | --- | --- | --- |\n| [Acme](https://acme.example) | [SWE Intern](https://acme.example) | Remote | [Apply](https://acme.example/apply) | 0d |" =
      [[("source", "SimplifyJobs 2026"), ("category", "Software Engineering"),
        ("title", "SWE Intern"), ("company", "Acme"), ("location", "Remote"),
        ("url", "https://acme.example/apply"), ("posted", "0d")]] := by
  decide

/-! ### C5: the recency (Age) filter -/

/-- C5: the recency filter keeps exactly the same-day rows.  Generally, a
row whose detected Age-column cell does not normalize to `0d` is dropped,
and one whose Age cell normalizes to `0d` survives whenever the remaining
row checks pass; concretely, a `5d` Age row is excluded from the
extractor's output, a `0d` Age row is included, and without a detected Age
column a row is included exactly when some cell normalizes to `0d` (or
embeds `" 0d"`). -/
theorem age_filter_props :
    (∀ (cat : String) (i : Nat) (cols : List String), i < cols.length →
      norm (cols.getD i "") ≠ "0d" → rowItem cat (some i) cols = none) ∧
    (∀ (cat : String) (i : Nat) (cols : List String), i < cols.length →
      norm (cols.getD i "") = "0d" → cols.any cellIsCompany = false →
      4 ≤ cols.length → mdFirstUrl (cols.getD 3 "") ≠ "" →
      (rowItem cat (some i) cols).isSome = true) ∧
    parse_simplify_2026_age0
      "## Software Engineering Internship Roles\n| Company | Role | Location | Application | Age |\n| [Acme](https://a.example) | [SWE Intern](https://a.example) | Remote | [Apply](https://a.example/apply) | 5d |" =
      [] ∧
    parse_simplify_2026_age0
      "## Software Engineering Internship Roles\n| Company | Role | Location | Application | Age |\n| [Acme](https://a.example) | [SWE Intern](https://a.example) | Remote | [Apply](https://a.example/apply) | 0d |" =
      [[("source", "SimplifyJobs 2026"), ("category", "Software Engineering"),
        ("title", "SWE Intern"), ("company", "Acme"), ("location", "Remote"),
        ("url", "https://a.example/apply"), ("posted", "0d")]] ∧
    parse_simplify_2026_age0
      "## Software Engineering Internship Roles\n| Company | Role | Location | Application | Posted |\n| Acme | SWE Intern | Remote | [Apply](https://a.example/apply) | 0d |" =
      [[("source", "SimplifyJobs 2026"), ("category", "Software Engineering"),
        ("title", "SWE Intern"), ("company", "Acme"), ("location", "Remote"),
        ("url", "https://a.example/apply"), ("posted", "0d")]] ∧
    parse_simplify_2026_age0
      "## Software Engineering Internship Roles\n| Company | Role | Location | Application | Posted |\n| Acme | SWE Intern | Remote | [Apply](https://a.example/apply) | reposted 0d |" =
      [[("source", "SimplifyJobs 2026"), ("category", "Software Engineering"),
        ("title", "SWE Intern"), ("company", "Acme"), ("location", "Remote"),
        ("url", "https://a.example/apply"), ("posted", "0d")]] ∧
    parse_simplify_2026_age0
      "## Software Engineering Internship Roles\n| Company | Role | Location | Application | Posted |\n| Acme | SWE Intern | Remote | [Apply](https://a.example/apply) | 5d |" =
      [] := by
  refine ⟨?_, ?_, by decide, by decide, by decide, by decide, by decide⟩
  · intro cat i cols hi hnorm
    by_cases h1 : cols.any cellIsCompany = true
    · simp [rowItem, h1]
    · by_cases h2 : cols.length < 4
      · simp [rowItem, h1, h2]
      · have hgi : cols.getD i "" = cols[i] := List.getD_eq_getElem cols "" hi
        simp only [rowItem, h1, Bool.false_eq_true, if_false, h2, hi, if_true, hgi] at hnorm ⊢
        simp [hnorm]
  · intro cat i cols hi hnorm h1 h4 hurl
    have h2 : ¬ cols.length < 4 := by omega
    have h3 : 3 < cols.length := by omega
    have hgi : cols.getD i "" = cols[i] := List.getD_eq_getElem cols "" hi
    have hg3 : cols.getD 3 "" = cols[3] := List.getD_eq_getElem cols "" h3
    rw [hgi] at hnorm
    rw [hg3] at hurl
    simp [rowItem, h1, h2, hi, h3, hnorm, hurl]

/-- Witness for C5's general clauses at a concrete Age cell. -/
theorem age_filter_props_witness :
    ((4 : Nat) < 5 ∧
      norm "5d" ≠ "0d" ∧
      rowItem "Software Engineering" (some 4)
        ["[Acme](https://a.example)", "[SWE Intern](https://a.example)", "Remote",
         "[Apply](https://a.example/apply)", "5d"] = none) ∧
    (norm "0d" = "0d" ∧
      (["[Acme](https://a.example)", "[SWE Intern](https://a.example)", "Remote",
        "[Apply](https://a.example/apply)", "0d"].any cellIsCompany = false) ∧
      mdFirstUrl "[Apply](https://a.example/apply)" ≠ "" ∧
      (rowItem "Software Engineering" (some 4)
        ["[Acme](https://a.example)", "[SWE Intern](https://a.example)", "Remote",
         "[Apply](https://a.example/apply)", "0d"]).isSome = true) :=
  ⟨⟨by decide, by decide,
    age_filter_props.1 "Software Engineering" 4
      ["[Acme](https://a.example)", "[SWE Intern](https://a.example)", "Remote",
       "[Apply](https://a.example/apply)", "5d"] (by decide) (by decide)⟩,
   ⟨by decide, by decide, by decide,
    age_filter_props.2.1 "Software Engineering" 4
      ["[Acme](https://a.example)", "[SWE Intern](https://a.example)", "Remote",
       "[Apply](https://a.example/apply)", "0d"] (by decide) (by decide) (by decide)
      (by decide) (by decide)⟩⟩

/-! ### C9: alert batch truncation -/

/-- C9: for any 9 new records with the batch cap at 6, the composed body is
the header, exactly 6 itemized entries (each rendered by `lineOf`: category,
source, company cut to 40 characters or a placeholder, title cut to 70 or a
placeholder, optional location and recency label, and the URL on a
continuation line), the trailing `(+3 more new roles)` summary, and the
fixed opt-out footer. -/
theorem alert_batch_truncation (new : List Item) (h : new.length = 9) :
    composeBody new =
      "New internships:\n" ++ strJoin "\n" ((new.take 6).map lineOf) ++
        "\n(+3 more new roles)" ++ "\nReply STOP to opt out." ∧
    ((new.take 6).map lineOf).length = 6 := by
  constructor
  · have htail : (if new.length ≤ 6 then ""
        else "\n(+" ++ Nat.repr (new.length - 6) ++ " more new roles)") =
        "\n(+3 more new roles)" := by
      rw [h]
      decide
    show "New internships:\n" ++ strJoin "\n" ((new.take 6).map lineOf) ++
        (if new.length ≤ 6 then ""
         else "\n(+" ++ Nat.repr (new.length - 6) ++ " more new roles)") ++
        "\nReply STOP to opt out." = _
    rw [htail]
  · simp [h]

/-- Witness for C9 on a concrete list of 9 records. -/
theorem alert_batch_truncation_witness :
    (List.replicate 9 [("company", "Acme"), ("url", "https://a.example")]).length = 9 ∧
    (composeBody (List.replicate 9 [("company", "Acme"), ("url", "https://a.example")]) =
      "New internships:\n" ++
        strJoin "\n"
          (((List.replicate 9 [("company", "Acme"), ("url", "https://a.example")]).take 6).map lineOf) ++
        "\n(+3 more new roles)" ++ "\nReply STOP to opt out." ∧
      (((List.replicate 9 [("company", "Acme"), ("url", "https://a.example")]).take 6).map lineOf).length = 6) :=
  ⟨by decide,
    alert_batch_truncation (List.replicate 9 [("company", "Acme"), ("url", "https://a.example")])
      (by decide)⟩

/-! ### C6: idle notification fires at most once per dry spell -/

theorem runTrace_append (flag : Bool) (xs ys : List Bool) :
    runTrace flag (xs ++ ys) = runTrace flag xs ++ runTrace (flagAfter flag xs) ys := by
  induction xs generalizing flag with
  | nil => rfl
  | cons x xs ih => simp [runTrace, flagAfter, ih]

theorem flagAfter_append (flag : Bool) (xs ys : List Bool) :
    flagAfter flag (xs ++ ys) = flagAfter (flagAfter flag xs) ys := by
  induction xs generalizing flag with
  | nil => rfl
  | cons x xs ih => simp [flagAfter, ih]

theorem runTrace_true_zeroes (streak : List Bool) (h : ∀ b ∈ streak, b = false) :
    runTrace true streak = List.replicate streak.length false := by
  induction streak with
  | nil => rfl
  | cons b bs ih =>
    have hb := h b (by simp)
    subst hb
    simp only [runTrace, List.length_cons, List.replicate_succ]
    exact congrArg (List.cons false) (ih fun b hb => h b (by simp [hb]))

/-- C6: a zero-new run emits the idle notice exactly when the persisted
flag is false at its start and leaves the flag set; a run with new records
resets the flag; traces decompose along the persisted flag; and in a streak
of zero-new runs that begins the history or directly follows a run with new
records, exactly the first run emits the idle notification. -/
theorem idle_single_fire (pre streak post : List Bool)
    (hstreak : ∀ b ∈ streak, b = false) (hne : streak ≠ [])
    (hpre : pre = [] ∨ ∃ pre', pre = pre' ++ [true]) :
    (∀ flag, runStep false flag = (!flag, true)) ∧
    (∀ flag, runStep true flag = (false, false)) ∧
    (∀ flag xs ys, runTrace flag (xs ++ ys) =
      runTrace flag xs ++ runTrace (flagAfter flag xs) ys) ∧
    runTrace (flagAfter false pre) streak =
      true :: List.replicate (streak.length - 1) false ∧
    runTrace false (pre ++ streak ++ post) =
      runTrace false pre ++ (true :: List.replicate (streak.length - 1) false) ++
        runTrace (flagAfter false (pre ++ streak)) post := by
  have hflag : flagAfter false pre = false := by
    rcases hpre with rfl | ⟨pre', rfl⟩
    · rfl
    · rw [flagAfter_append]
      rfl
  have hstreakTrace : runTrace (flagAfter false pre) streak =
      true :: List.replicate (streak.length - 1) false := by
    rw [hflag]
    cases streak with
    | nil => exact absurd rfl hne
    | cons b bs =>
      have hb := hstreak b (by simp)
      subst hb
      simp only [runTrace, List.length_cons, Nat.add_sub_cancel]
      exact congrArg (List.cons true)
        (runTrace_true_zeroes bs fun b hb => hstreak b (by simp [hb]))
  refine ⟨fun flag => by cases flag <;> rfl, fun flag => by cases flag <;> rfl,
    runTrace_append, hstreakTrace, ?_⟩
  rw [List.append_assoc, runTrace_append, runTrace_append, hstreakTrace,
    flagAfter_append, ← List.append_assoc]

/-- Witness for C6 at a concrete history: one productive run, then a
two-run dry spell, then a productive run and another dry run. -/
theorem idle_single_fire_witness :
    ((∀ b ∈ [false, false], b = false) ∧ [false, false] ≠ ([] : List Bool) ∧
      ([true] = ([] : List Bool) ∨ ∃ pre', [true] = pre' ++ [true])) ∧
    runTrace (flagAfter false [true]) [false, false] =
      true :: List.replicate 1 false ∧
    runTrace false ([true] ++ [false, false] ++ [true, false]) =
      runTrace false [true] ++ (true :: List.replicate 1 false) ++
        runTrace (flagAfter false ([true] ++ [false, false])) [true, false] :=
  ⟨⟨by decide, by decide, Or.inr ⟨[], rfl⟩⟩,
    (idle_single_fire [true] [false, false] [true, false]
      (by decide) (by decide) (Or.inr ⟨[], rfl⟩)).2.2.2.1,
    (idle_single_fire [true] [false, false] [true, false]
      (by decide) (by decide) (Or.inr ⟨[], rfl⟩)).2.2.2.2⟩

/-! ### C7: state loading -/

theorem lookup_append_pyjson (l₁ l₂ : List (String × PyJson)) (k : String) :
    List.lookup k (l₁ ++ l₂) =
      match List.lookup k l₁ with
      | some v => some v
      | none => List.lookup k l₂ := by
  induction l₁ with
  | nil => simp [List.lookup]
  | cons a t ih =>
    cases a with
    | mk a1 a2 =>
      by_cases h : k = a1
      · simp [List.lookup, h]
      · have hb : (k == a1) = false := by simpa using h
        simp [List.lookup, hb, ih]

/-- C7 counterexample: a parseable store whose `seen` field is a number is
a stored representation on which loading raises (`set(5)` is a `TypeError`,
thrown outside `_init_state`'s `try` block), so loading does not return a
pair for every stored representation. -/
theorem state_load_raises_cex :
    loadRaises (Stored.parsed (PyJson.object [("seen", PyJson.number 5)])) = true := rfl

/-- C7 amended: loading returns a (fingerprint set, idle-flag) pair on a
missing store, an unparseable store, a legacy bare list of fingerprints
(loaded with flag false), and on the current dict shape whose `seen` field
is a hashable-element list (fields defaulted when missing, the flag read
with Python truthiness); but a parseable dict whose `seen` field is a
number raises instead of degrading. -/
theorem state_load_total_amended :
    load_seen_set_and_flag Stored.missing = Except.ok ([], false) ∧
    load_seen_set_and_flag Stored.invalid = Except.ok ([], false) ∧
    (∀ fps : List String,
      load_seen_set_and_flag (Stored.parsed (PyJson.array (fps.map PyJson.string))) =
        Except.ok (fps.map PyJson.string, false)) ∧
    (∀ (kvs : List (String × PyJson)) (xs : List PyJson) (flagv : PyJson),
      jsonLookup kvs "seen" = some (PyJson.array xs) →
      xs.all jsonHashable = true →
      jsonLookup kvs "no_new_notified" = some flagv →
      load_seen_set_and_flag (Stored.parsed (PyJson.object kvs)) =
        Except.ok (xs, pyTruthy flagv)) ∧
    (∀ kvs : List (String × PyJson),
      jsonLookup kvs "seen" = none → jsonLookup kvs "no_new_notified" = none →
      load_seen_set_and_flag (Stored.parsed (PyJson.object kvs)) =
        Except.ok ([], false)) ∧
    (∀ n : Int,
      loadRaises (Stored.parsed (PyJson.object [("seen", PyJson.number n)])) = true) := by
  refine ⟨rfl, rfl, ?_, ?_, ?_, fun n => rfl⟩
  · intro fps
    have hall : ((fps.map PyJson.string).all jsonHashable) = true := by
      simp [List.all_map, jsonHashable, Function.comp]
    simp [load_seen_set_and_flag, init_state, jsonLookup, pySet, hall, pyTruthy,
      List.lookup]
  · intro kvs xs flagv hseen hhash hflag
    simp only [jsonLookup] at hseen hflag
    have hs1 : setdefault kvs "seen" (PyJson.array []) = kvs := by
      simp [setdefault, jsonLookup, hseen]
    have hs2 : setdefault kvs "no_new_notified" (PyJson.boolean false) = kvs := by
      simp [setdefault, jsonLookup, hflag]
    simp only [load_seen_set_and_flag, init_state, hs1, hs2, jsonLookup, hseen, hflag,
      pySet, Option.getD_some]
    rw [if_pos hhash]
  · intro kvs hseen hflag
    simp only [jsonLookup] at hseen hflag
    have hstate : init_state (Stored.parsed (PyJson.object kvs)) =
        kvs ++ [("seen", PyJson.array []), ("no_new_notified", PyJson.boolean false)] := by
      have hlook1 : List.lookup "no_new_notified" (kvs ++ [("seen", PyJson.array [])]) =
          none := by
        rw [lookup_append_pyjson]
        simp [hflag, List.lookup]
      simp [init_state, setdefault, jsonLookup, hseen, hlook1]
    have hlookSeen : List.lookup "seen"
        (kvs ++ [("seen", PyJson.array []), ("no_new_notified", PyJson.boolean false)]) =
        some (PyJson.array []) := by
      rw [lookup_append_pyjson]
      simp [hseen, List.lookup]
    have hlookFlag : List.lookup "no_new_notified"
        (kvs ++ [("seen", PyJson.array []), ("no_new_notified", PyJson.boolean false)]) =
        some (PyJson.boolean false) := by
      rw [lookup_append_pyjson]
      simp [hflag, List.lookup]
    simp [load_seen_set_and_flag, hstate, jsonLookup, hlookSeen, hlookFlag, pySet,
      pyTruthy]

/-- Witness for C7's dict clause at a concrete well-typed store. -/
theorem state_load_total_amended_witness :
    (jsonLookup [("seen", PyJson.array [PyJson.string "abc"]),
        ("no_new_notified", PyJson.boolean true)] "seen" =
      some (PyJson.array [PyJson.string "abc"]) ∧
     [PyJson.string "abc"].all jsonHashable = true ∧
     jsonLookup [("seen", PyJson.array [PyJson.string "abc"]),
        ("no_new_notified", PyJson.boolean true)] "no_new_notified" =
      some (PyJson.boolean true)) ∧
    load_seen_set_and_flag (Stored.parsed (PyJson.object
        [("seen", PyJson.array [PyJson.string "abc"]),
         ("no_new_notified", PyJson.boolean true)])) =
      Except.ok ([PyJson.string "abc"], pyTruthy (PyJson.boolean true)) :=
  ⟨⟨rfl, rfl, rfl⟩,
    state_load_total_amended.2.2.2.1
      [("seen", PyJson.array [PyJson.string "abc"]),
       ("no_new_notified", PyJson.boolean true)]
      [PyJson.string "abc"] (PyJson.boolean true) rfl rfl rfl⟩

/-! ### C4: Markdown section isolation -/

theorem sectionAux_skip (target : String) (pre rest : List String)
    (hpre : ∀ l ∈ pre,
      ¬(strStartsWith l "## " = true ∧ headingMatches target l = true)) :
    sectionAux target (pre ++ rest) false = sectionAux target rest false := by
  induction pre with
  | nil => rfl
  | cons l ls ih =>
    have hrec := ih fun l' hl' => hpre l' (by simp [hl'])
    by_cases h1 : strStartsWith l "## " = true
    · have h2 : headingMatches target l = false := by
        cases hm : headingMatches target l
        · rfl
        · exact absurd ⟨h1, hm⟩ (hpre l (by simp))
      simpa [sectionAux, h1, h2] using hrec
    · simpa [sectionAux, h1] using hrec

theorem sectionAux_yield (target : String) (mid rest : List String)
    (hmid : ∀ l ∈ mid, strStartsWith l "## " = false) :
    sectionAux target (mid ++ rest) true = mid ++ sectionAux target rest true := by
  induction mid with
  | nil => rfl
  | cons l ls ih =>
    have h1 := hmid l (by simp)
    have hrec := ih fun l' hl' => hmid l' (by simp [hl'])
    simpa [sectionAux, h1] using hrec

/-- C4 amended: for a document whose first `## ` heading matching the
configured fragment is `H`, whose following lines `mid` contain no `## `
heading, and whose next `## ` heading `H2` does **not** match the fragment,
the section is exactly `mid`: every row of `mid` is attributed to the
fragment's category and nothing after `H2` is.  When the document instead
ends after `mid`, the section is again exactly `mid`.  (The proviso on `H2`
is necessary: a next heading whose normalized text contains the fragment
keeps the section open, see the counterexample.) -/
theorem markdown_section_isolation_amended (md frag : String)
    (pre mid post : List String) (H H2 : String)
    (hsplit : pySplitlines md = pre ++ H :: (mid ++ H2 :: post))
    (hpre : ∀ l ∈ pre,
      ¬(strStartsWith l "## " = true ∧ headingMatches (norm frag) l = true))
    (hH1 : strStartsWith H "## " = true)
    (hHm : headingMatches (norm frag) H = true)
    (hmid : ∀ l ∈ mid, strStartsWith l "## " = false)
    (hN1 : strStartsWith H2 "## " = true)
    (hNm : headingMatches (norm frag) H2 = false) :
    iterSectionLines md frag = mid ∧
    (∀ row ∈ mid, row ∈ iterSectionLines md frag) ∧
    (∀ row ∈ post, row ∉ mid → row ∉ iterSectionLines md frag) ∧
    sectionAux (norm frag) (pre ++ H :: mid) false = mid := by
  have heod : sectionAux (norm frag) (pre ++ H :: mid) false = mid := by
    rw [sectionAux_skip (norm frag) pre _ hpre]
    show sectionAux (norm frag) (H :: mid) false = mid
    rw [sectionAux]
    simp only [hH1, hHm, if_true]
    simpa [sectionAux] using sectionAux_yield (norm frag) mid [] hmid
  have hmain : iterSectionLines md frag = mid := by
    rw [iterSectionLines, hsplit, sectionAux_skip (norm frag) pre _ hpre]
    show sectionAux (norm frag) (H :: (mid ++ H2 :: post)) false = mid
    rw [sectionAux]
    simp only [hH1, hHm, if_true]
    rw [sectionAux_yield (norm frag) mid _ hmid]
    show mid ++ sectionAux (norm frag) (H2 :: post) true = mid
    rw [sectionAux]
    simp [hN1, hNm]
  refine ⟨hmain, fun row hr => by rw [hmain]; exact hr,
    fun row _ hnm => by rw [hmain]; exact hnm, heod⟩

/-- C4 counterexample: when the next `## ` heading itself contains the
configured fragment, a table row lying after it is still attributed to the
section, contradicting the claim that the section runs only until the next
`## ` heading. -/
theorem markdown_section_isolation_cex :
    pySplitlines "## Software Engineering Internship Roles\n| a | b | c | d |\n## Software Engineering Internship Roles continued\n| e | f | g | h |" =
      ["## Software Engineering Internship Roles", "| a | b | c | d |",
       "## Software Engineering Internship Roles continued", "| e | f | g | h |"] ∧
    strStartsWith "## Software Engineering Internship Roles continued" "## " = true ∧
    iterSectionLines
      "## Software Engineering Internship Roles\n| a | b | c | d |\n## Software Engineering Internship Roles continued\n| e | f | g | h |"
      "software engineering internship roles" =
      ["| a | b | c | d |", "| e | f | g | h |"] ∧
    parseMarkdownTableLines (iterSectionLines
      "## Software Engineering Internship Roles\n| a | b | c | d |\n## Software Engineering Internship Roles continued\n| e | f | g | h |"
      "software engineering internship roles") =
      [["a", "b", "c", "d"], ["e", "f", "g", "h"]] := by
  decide

/-- Witness for C4 at a concrete document with a non-matching next
heading. -/
theorem markdown_section_isolation_witness :
    pySplitlines "intro\n## Software Engineering Internship Roles\n| r1 |\n## Other Roles\n| r2 |" =
      ["intro"] ++ "## Software Engineering Internship Roles" ::
        (["| r1 |"] ++ "## Other Roles" :: ["| r2 |"]) ∧
    iterSectionLines "intro\n## Software Engineering Internship Roles\n| r1 |\n## Other Roles\n| r2 |"
      "software engineering internship roles" = ["| r1 |"] :=
  ⟨by decide,
    (markdown_section_isolation_amended
      "intro\n## Software Engineering Internship Roles\n| r1 |\n## Other Roles\n| r2 |"
      "software engineering internship roles"
      ["intro"] ["| r1 |"] ["| r2 |"]
      "## Software Engineering Internship Roles" "## Other Roles"
      (by decide) (by decide) (by decide) (by decide) (by decide) (by decide)
      (by decide)).1⟩

/-! ### C8: URL shape of extracted records -/

theorem isPrefixOf_append_left {p l₁ : List Char} (l₂ : List Char)
    (h : p.isPrefixOf l₁ = true) : p.isPrefixOf (l₁ ++ l₂) = true := by
  obtain ⟨t, rfl⟩ := isPrefixOf_exists_append h
  rw [List.append_assoc]
  exact isPrefixOf_append_self p (t ++ l₂)

theorem isPrefixOf_trans {p q l : List Char} (h1 : p.isPrefixOf q = true)
    (h2 : q.isPrefixOf l = true) : p.isPrefixOf l = true := by
  obtain ⟨t1, rfl⟩ := isPrefixOf_exists_append h1
  obtain ⟨t2, rfl⟩ := isPrefixOf_exists_append h2
  rw [List.append_assoc]
  exact isPrefixOf_append_self p (t1 ++ t2)

theorem ne_empty_of_http {s : String} (h : strStartsWith s "http" = true) :
    s ≠ "" := by
  obtain ⟨t, ht⟩ := isPrefixOf_exists_append h
  intro he
  rw [he] at ht
  simp at ht

theorem http_of_scheme {s : String}
    (h : strStartsWith s "http://" = true ∨ strStartsWith s "https://" = true) :
    strStartsWith s "http" = true := by
  rcases h with h | h
  · exact isPrefixOf_trans (by decide) h
  · exact isPrefixOf_trans (by decide) h

/-- Stripping whitespace keeps an `http`-style prefix. -/
theorem strStartsWith_pyStrip {s p : String} (hne : p.data ≠ [])
    (hp : ∀ c ∈ p.data, pyIsSpace c = false)
    (h : strStartsWith s p = true) : strStartsWith (pyStrip s) p = true :=
  pyStripL_keeps_prefix hne hp h

theorem dictIdx_normalize_url (s c t u co loc : String) (p : Option String) :
    dictIdx (normalize_item s c t u co loc p) "url" = pyStrip u := by
  cases p <;> rfl

theorem mdUrlAt_scheme {rest u : List Char} (h : mdUrlAt rest = some u) :
    "http://".data.isPrefixOf u = true ∨ "https://".data.isPrefixOf u = true := by
  unfold mdUrlAt at h
  by_cases h1 : "https://".data.isPrefixOf rest = true
  · simp only [h1, if_true] at h
    split at h
    · right
      cases h
      exact isPrefixOf_append_self _ _
    · cases h
  · simp only [h1, Bool.false_eq_true, if_false] at h
    by_cases h2 : "http://".data.isPrefixOf rest = true
    · simp only [h2, if_true] at h
      split at h
      · left
        cases h
        exact isPrefixOf_append_self _ _
      · cases h
    · simp only [h2, Bool.false_eq_true, if_false] at h
      cases h

theorem mdFirstUrlL_scheme {l u : List Char} (h : mdFirstUrlL l = some u) :
    "http://".data.isPrefixOf u = true ∨ "https://".data.isPrefixOf u = true := by
  induction l with
  | nil => cases h
  | cons c rest ih =>
    by_cases hc : c = '('
    · simp only [mdFirstUrlL, hc, if_true] at h
      cases hat : mdUrlAt rest with
      | some url =>
        rw [hat] at h
        cases h
        exact mdUrlAt_scheme hat
      | none =>
        rw [hat] at h
        exact ih h
    · simp only [mdFirstUrlL, hc, Bool.false_eq_true, if_false] at h
      exact ih h

theorem mdFirstUrl_scheme {cell : String} (h : mdFirstUrl cell ≠ "") :
    strStartsWith (mdFirstUrl cell) "http://" = true ∨
    strStartsWith (mdFirstUrl cell) "https://" = true := by
  unfold mdFirstUrl at h ⊢
  cases hm : mdFirstUrlL cell.data with
  | none => rw [hm] at h; exact absurd rfl h
  | some u => exact mdFirstUrlL_scheme hm

theorem ite_none_eq {α : Type} {c : Prop} [Decidable c] {x : Option α} {o : α}
    (h : (if c then none else x) = some o) : ¬c ∧ x = some o := by
  split at h
  · cases h
  · exact ⟨by assumption, h⟩

theorem ite_some_eq {α : Type} {c : Prop} [Decidable c] {x : α} {o : α}
    (h : (if c then some x else none) = some o) : c ∧ x = o := by
  split at h
  · exact ⟨by assumption, Option.some.inj h⟩
  · cases h

theorem rowItem_url_scheme {cat : String} {ageIdx : Option Nat}
    {cols : List String} {r : Item} (h : rowItem cat ageIdx cols = some r) :
    strStartsWith (dictIdx r "url") "http://" = true ∨
    strStartsWith (dictIdx r "url") "https://" = true := by
  unfold rowItem at h
  obtain ⟨-, h⟩ := ite_none_eq h
  obtain ⟨-, h⟩ := ite_none_eq h
  obtain ⟨-, h⟩ := ite_none_eq h
  obtain ⟨hurl, rfl⟩ := ite_some_eq h
  rw [dictIdx_normalize_url]
  by_cases h5 : 3 < cols.length
  · rw [if_pos h5] at hurl ⊢
    rcases mdFirstUrl_scheme hurl with hs | hs
    · exact Or.inl (strStartsWith_pyStrip (by decide) (by decide) hs)
    · exact Or.inr (strStartsWith_pyStrip (by decide) (by decide) hs)
  · rw [if_neg h5] at hurl
    exact absurd rfl hurl

/-- `_absolute` always produces an `http(s)://` URL on nonempty input. -/
theorem absoluteUrl_scheme {href : String} (h : href ≠ "") :
    strStartsWith (absoluteUrl href) "http://" = true ∨
    strStartsWith (absoluteUrl href) "https://" = true := by
  unfold absoluteUrl
  rw [if_neg h]
  by_cases h2 : (strStartsWith href "http://" || strStartsWith href "https://") = true
  · rw [if_pos h2]
    rcases Bool.or_eq_true_iff.mp h2 with hs | hs
    · exact Or.inl hs
    · exact Or.inr hs
  · rw [if_neg h2]
    by_cases h3 : strStartsWith href "/" = true
    · rw [if_pos h3]
      right
      show "https://".data.isPrefixOf (IL_BASE ++ href).data = true
      rw [String.data_append]
      exact isPrefixOf_append_left _ (by decide)
    · rw [if_neg h3]
      right
      show "https://".data.isPrefixOf (IL_BASE ++ "/" ++ href).data = true
      rw [String.data_append, String.data_append]
      exact isPrefixOf_append_left _ (isPrefixOf_append_left _ (by decide))

theorem cardsStrategyA_url {companyOf : String → String} {anchors : List Anchor}
    {cat : String} {r : Item} (h : r ∈ cardsStrategyA companyOf anchors cat) :
    strStartsWith (dictIdx r "url") "http://" = true ∨
    strStartsWith (dictIdx r "url") "https://" = true := by
  obtain ⟨a, _, hf⟩ := List.mem_filterMap.mp h
  simp only [cardsStrategyA] at hf
  obtain ⟨h1, hf⟩ := ite_none_eq hf
  obtain ⟨-, hf⟩ := ite_none_eq hf
  obtain ⟨-, rfl⟩ := ite_some_eq hf
  rw [dictIdx_normalize_url]
  have hne : a.href ≠ "" := by
    intro he
    simp [he] at h1
  rcases absoluteUrl_scheme hne with hs | hs
  · exact Or.inl (strStartsWith_pyStrip (by decide) (by decide) hs)
  · exact Or.inr (strStartsWith_pyStrip (by decide) (by decide) hs)

theorem cardsStrategyB_url {anchors : List Anchor} {cat : String} {r : Item}
    (h : r ∈ cardsStrategyB anchors cat) :
    strStartsWith (dictIdx r "url") "http" = true := by
  obtain ⟨a, _, hf⟩ := List.mem_filterMap.mp h
  obtain ⟨h1, hf⟩ := ite_none_eq hf
  obtain ⟨-, hf⟩ := ite_none_eq hf
  obtain ⟨-, hf⟩ := ite_none_eq hf
  obtain ⟨-, hf⟩ := ite_none_eq hf
  obtain rfl := Option.some.inj hf
  rw [dictIdx_normalize_url]
  have hhttp : strStartsWith a.href "http" = true := by
    cases hs : strStartsWith a.href "http"
    · exact absurd (by simp [hs]) h1
    · rfl
  exact strStartsWith_pyStrip (by decide) (by decide) hhttp

theorem dedupByUrl_subset {items : List Item} {r : Item}
    (h : r ∈ dedupByUrl items) : r ∈ items := by
  unfold dedupByUrl at h
  obtain ⟨u, _, hfind⟩ := List.mem_filterMap.mp h
  exact List.mem_reverse.mp (List.mem_of_find?_eq_some hfind)

/-- C8 amended: every record surviving either extractor has a non-empty
url beginning with `http`; records from the Markdown extractor and from
the HTML extractor's internal-link strategy are absolute `http(s)` URLs
(relative targets resolved against the fixed site origin, rows without a
resolvable URL discarded); the HTML fallback strategy, however, passes
through any href that merely begins with `http`, which need not be an
absolute `http(s)` URL. -/
theorem extraction_url_prefix_amended :
    (∀ (md : String) (r : Item), r ∈ parse_simplify_2026_age0 md →
      strStartsWith (dictIdx r "url") "http://" = true ∨
      strStartsWith (dictIdx r "url") "https://" = true) ∧
    (∀ (companyOf : String → String) (anchors : List Anchor) (cat : String)
      (r : Item), r ∈ extract_cards_from_search companyOf anchors cat →
      dictIdx r "url" ≠ "" ∧ strStartsWith (dictIdx r "url") "http" = true) ∧
    (∀ (companyOf : String → String) (anchors : List Anchor) (cat : String)
      (r : Item), r ∈ cardsStrategyA companyOf anchors cat →
      strStartsWith (dictIdx r "url") "http://" = true ∨
      strStartsWith (dictIdx r "url") "https://" = true) := by
  refine ⟨?_, ?_, fun companyOf anchors cat r h => cardsStrategyA_url h⟩
  · intro md r h
    unfold parse_simplify_2026_age0 at h
    split_ifs at h with h0
    · cases h
    obtain ⟨cs, _, hin⟩ := List.mem_flatMap.mp h
    rw [parseSection] at hin
    split at hin
    · cases hin
    · obtain ⟨cols, _, hrow⟩ := List.mem_filterMap.mp hin
      exact rowItem_url_scheme hrow
  · intro companyOf anchors cat r h
    unfold extract_cards_from_search at h
    have hmem := dedupByUrl_subset h
    by_cases hA : (cardsStrategyA companyOf anchors cat).isEmpty = true
    · rw [if_pos hA] at hmem
      have := cardsStrategyB_url hmem
      exact ⟨ne_empty_of_http this, this⟩
    · rw [if_neg hA] at hmem
      have := http_of_scheme (cardsStrategyA_url hmem)
      exact ⟨ne_empty_of_http this, this⟩

/-- C8 counterexample: the HTML fallback strategy accepts an anchor whose
href is `httpzzz/intern-role` — the extracted record's url is non-empty
but not an absolute `http(s)` URL, refuting the unrestricted invariant. -/
theorem extraction_url_absolute_cex :
    extract_cards_from_search (fun _ => "")
      [⟨"httpzzz/intern-role", "intern role", none⟩] "Software Engineering" =
      [[("source", "Intern List"), ("category", "Software Engineering"),
        ("title", "intern role"), ("company", ""), ("location", ""),
        ("url", "httpzzz/intern-role")]] ∧
    (strStartsWith "httpzzz/intern-role" "http://" = false ∧
     strStartsWith "httpzzz/intern-role" "https://" = false) := by
  decide

/-- Witness for C8 at a concrete Markdown record and concrete anchors. -/
theorem extraction_url_prefix_witness :
    ([("source", "SimplifyJobs 2026"), ("category", "Software Engineering"),
      ("title", "B"), ("company", "A"), ("location", "C"),
      ("url", "https://a.example"), ("posted", "0d")] ∈
      parse_simplify_2026_age0
        "## Software Engineering Internship Roles\n| Company | Role | Location | Application | Age |\n| A | B | C | [x](https://a.example) | 0d |") ∧
    (strStartsWith
        (dictIdx [("source", "SimplifyJobs 2026"), ("category", "Software Engineering"),
          ("title", "B"), ("company", "A"), ("location", "C"),
          ("url", "https://a.example"), ("posted", "0d")] "url") "http://" = true ∨
     strStartsWith
        (dictIdx [("source", "SimplifyJobs 2026"), ("category", "Software Engineering"),
          ("title", "B"), ("company", "A"), ("location", "C"),
          ("url", "https://a.example"), ("posted", "0d")] "url") "https://" = true) :=
  ⟨by decide,
    extraction_url_prefix_amended.1
      "## Software Engineering Internship Roles\n| Company | Role | Location | Application | Age |\n| A | B | C | [x](https://a.example) | 0d |"
      [("source", "SimplifyJobs 2026"), ("category", "Software Engineering"),
       ("title", "B"), ("company", "A"), ("location", "C"),
       ("url", "https://a.example"), ("posted", "0d")]
      (by decide)⟩

end InternBot
